import Mathlib

/-!
# Verification of the tic-tac-toe websocket server

A shallow embedding of the authoritative game-session server: the 3x3
board, the winner detection, the per-message handler (move and reset with
the spectator / turn / occupancy guards), the connection registry that
assigns X, O or spectator to each live connection, and the fan-out
broadcast.  Theorems settle the specified properties of these operations.
-/

namespace TicTacToe

/-- A player mark, the TypeScript type Player = X | O. -/
inductive Player where
  | X : Player
  | O : Player
deriving DecidableEq, Repr, Fintype

/-- A cell holds a player mark or is empty (null). -/
abbrev Cell := Option Player

/-- The 3x3 board, row-major: the cell at column x of row y is read as
b y x, matching the source indexing board[y][x]. -/
abbrev Board := Fin 3 → Fin 3 → Cell

instance : DecidableEq Board := inferInstance

/-- The board all of whose cells are null, the initializer of board. -/
def emptyBoard : Board := fun _ _ => none

/-- Writing value v into cell (x, y) of the board, the assignment
board[y][x] = v. -/
def setCell (b : Board) (y x : Fin 3) (v : Cell) : Board :=
  fun y1 x1 => if y1 = y ∧ x1 = x then v else b y1 x1

/-- The result type of checkWinner: Winner = X | O | draw | null. -/
inductive Winner where
  | won : Player → Winner
  | draw : Winner
  | inProgress : Winner
deriving DecidableEq, Repr

/-- The eight line triples in the order the source builds them: the three
rows top to bottom, the three columns left to right, the main diagonal,
the anti-diagonal. -/
def lines (b : Board) : List (Cell × Cell × Cell) :=
  [ (b 0 0, b 0 1, b 0 2),
    (b 1 0, b 1 1, b 1 2),
    (b 2 0, b 2 1, b 2 2),
    (b 0 0, b 1 0, b 2 0),
    (b 0 1, b 1 1, b 2 1),
    (b 0 2, b 1 2, b 2 2),
    (b 0 0, b 1 1, b 2 2),
    (b 0 2, b 1 1, b 2 0) ]

/-- The per-line test of the loop body: if line[0] is non-null and
line[0] === line[1] and line[1] === line[2], the common mark wins. -/
def lineWinner : Cell × Cell × Cell → Option Player
  | (some p, c1, c2) => if c1 = some p ∧ c2 = some p then some p else none
  | (none, _, _) => none

/-- The for-loop over the lines: return the winner of the first matching
line, none if no line matches. -/
def firstWin : List (Cell × Cell × Cell) → Option Player
  | [] => none
  | l :: ls =>
    match lineWinner l with
    | some p => some p
    | none => firstWin ls

/-- The loop bounds 0, 1, 2 of the reset loops and the every checks. -/
def positions : List (Fin 3) := [0, 1, 2]

/-- board.every(row => row.every(cell => cell !== null)). -/
def isFull (b : Board) : Bool :=
  positions.all fun y => positions.all fun x => (b y x).isSome

/-- checkWinner: the first matching line wins; otherwise draw when the
board is full, else null (in progress). -/
def checkWinner (b : Board) : Winner :=
  match firstWin (lines b) with
  | some p => .won p
  | none => if isFull b then .draw else .inProgress

/-- The mutable game state of the server: the shared board and the
variable next, the player expected to move. -/
structure GameState where
  board : Board
  next : Player
deriving DecidableEq

/-- The startup state: board all null, next = X. -/
def initialState : GameState := { board := emptyBoard, next := Player.X }

/-- The update message broadcast to every client: current board, the
player to move next, and the winner field. -/
structure UpdateMessage where
  board : Board
  next : Player
  winner : Winner
deriving DecidableEq

/-- An inbound client message after JSON parsing: a move with
coordinates, a reset, or any other type (which falls through the
switch). -/
inductive ClientMessage where
  | move : Fin 3 → Fin 3 → ClientMessage
  | reset : ClientMessage
  | other : ClientMessage
deriving DecidableEq

/-- The nested reset loops: for y in 0..2, for x in 0..2,
board[y][x] = null. -/
def resetBoard (b : Board) : Board :=
  positions.foldl (fun b1 y => positions.foldl (fun b2 x => setCell b2 y x none) b1) b

/-- The message handler of the canonical server: resolve the assignment
of the sender; if it is null or missing, return (spectators cannot act);
then dispatch on the message type.  A move is ignored when the sender is
not the player to move or the target cell is occupied; otherwise the mark
is written, the winner recomputed, the turn flipped, and an update
broadcast.  A reset clears the board, sets next = X and broadcasts.  The
returned option is the broadcast update, none when nothing is sent. -/
def handleMessage (player : Option Player) (msg : ClientMessage) (s : GameState) :
    GameState × Option UpdateMessage :=
  match player with
  | none => (s, none)
  | some p =>
    match msg with
    | .move x y =>
      if p ≠ s.next then (s, none)
      else if s.board y x ≠ none then (s, none)
      else
        let b1 := setCell s.board y x (some p)
        let winner := checkWinner b1
        let n1 := if s.next = Player.X then Player.O else Player.X
        ({ board := b1, next := n1 }, some { board := b1, next := n1, winner := winner })
    | .reset =>
      let b1 := resetBoard s.board
      ({ board := b1, next := Player.X },
       some { board := b1, next := Player.X, winner := Winner.inProgress })
    | .other => (s, none)

/-- A connection handle, the externally owned session identity. -/
abbrev Session := Nat

/-- The playerAssignments map: insertion-ordered association of each live
connection to its assignment, X, O or null (spectator). -/
abbrev Registry := List (Session × Option Player)

/-- playerAssignments.has(webSocket). -/
def hasSession (r : Registry) (s : Session) : Bool :=
  r.any fun e => e.1 == s

/-- [...playerAssignments.values()].includes(p). -/
def holds (r : Registry) (p : Player) : Bool :=
  r.any fun e => e.2 == some p

/-- The connection handler: a new session is assigned X if no live
session holds X, else O if none holds O, else null (spectator); the
mapping is recorded.  A session already present is left unchanged. -/
def onConnect (r : Registry) (s : Session) : Registry :=
  if hasSession r s then r
  else
    let assigned : Option Player :=
      if ¬ holds r Player.X then some Player.X
      else if ¬ holds r Player.O then some Player.O
      else none
    r ++ [(s, assigned)]

/-- The close handler: playerAssignments.delete(webSocket). -/
def onDisconnect (r : Registry) (s : Session) : Registry :=
  r.filter fun e => e.1 != s

/-- playerAssignments.get(webSocket), with a missing entry and a null
value both giving no role, as the guard if (!player) treats them. -/
def roleOf (r : Registry) (s : Session) : Option Player :=
  (r.find? fun e => e.1 == s).bind fun e => e.2

/-- The whole server state: the connection registry and the single game
session. -/
structure ServerState where
  registry : Registry
  game : GameState
deriving DecidableEq

/-- An event delivered by the transport layer: a new connection, a close,
or an inbound message from a connected session. -/
inductive Event where
  | connect : Session → Event
  | disconnect : Session → Event
  | message : Session → ClientMessage → Event
deriving DecidableEq

/-- The state at process startup: no connections, initial game state. -/
def initialServer : ServerState := { registry := [], game := initialState }

/-- One event processed to completion: connections update the registry,
messages resolve the sender role via the registry and run the message
handler. -/
def stepServer (st : ServerState) : Event → ServerState
  | .connect s => { st with registry := onConnect st.registry s }
  | .disconnect s => { st with registry := onDisconnect st.registry s }
  | .message s m => { st with game := (handleMessage (roleOf st.registry s) m st.game).1 }

/-- The server state after a sequence of events from startup. -/
def runServer (evs : List Event) : ServerState :=
  evs.foldl stepServer initialServer

/-- The broadcast loop over the currently connected clients.  The send
primitive of the transport layer is modelled by the oracle deliver giving
the delivery result per client; the loop ignores it (fire-and-forget, the
library reports a send error asynchronously rather than raising it into
the loop).  Returns the clients the snapshot reached. -/
def broadcast (deliver : Session → UpdateMessage → Bool) (clients : List Session)
    (m : UpdateMessage) : List Session :=
  clients.foldl (fun acc c => if deliver c m then acc ++ [c] else acc) []

/-- The number of live sessions of the registry holding the given role. -/
def roleCount (r : Registry) (p : Player) : Nat :=
  r.countP fun e => e.2 == some p

/-- The nine cells of the board listed row-major. -/
def cellList (b : Board) : List Cell :=
  [b 0 0, b 0 1, b 0 2, b 1 0, b 1 1, b 1 2, b 2 0, b 2 1, b 2 2]

/-- How many cells of the board carry the given mark. -/
def countMarks (b : Board) (p : Player) : Nat :=
  (cellList b).countP fun c => c == some p

/-- The cell counts agree with the turn pointer: X and O are tied exactly
when X moves next, and X leads by one exactly when O moves next. -/
def BalanceInv (s : GameState) : Prop :=
  (countMarks s.board Player.X = countMarks s.board Player.O ∧ s.next = Player.X) ∨
  (countMarks s.board Player.X = countMarks s.board Player.O + 1 ∧ s.next = Player.O)

/- ## Helper lemmas -/

/-- The reset loops clear every cell: the result is the empty board. -/
lemma resetBoard_eq (b : Board) : resetBoard b = emptyBoard := by
  funext y x
  fin_cases y <;> fin_cases x <;>
    simp [resetBoard, positions, setCell, emptyBoard, Fin.ext_iff]

/-- A line wins exactly when its three cells all carry the same mark. -/
lemma lineWinner_eq_some : ∀ (l : Cell × Cell × Cell) (p : Player),
    lineWinner l = some p ↔ l = (some p, some p, some p) := by decide

/-- A line does not win exactly when it is not monochrome. -/
lemma lineWinner_eq_none : ∀ l : Cell × Cell × Cell,
    (lineWinner l = none ↔ ∀ q : Player, l ≠ (some q, some q, some q)) := by decide

/-- The loop finds no winner exactly when no line wins. -/
lemma firstWin_eq_none (L : List (Cell × Cell × Cell)) :
    firstWin L = none ↔ ∀ l ∈ L, lineWinner l = none := by
  induction L with
  | nil => simp [firstWin]
  | cons l ls ih =>
    cases h : lineWinner l with
    | some p => simp [firstWin, h]
    | none => simp [firstWin, h, ih]

/-- The loop returns the winner of the first matching line. -/
lemma firstWin_of_first (L : List (Cell × Cell × Cell)) (k : Nat)
    (hk : k < L.length) (p : Player) (hwin : lineWinner (L.get ⟨k, hk⟩) = some p)
    (hbefore : ∀ j (hj : j < k), lineWinner (L.get ⟨j, Nat.lt_trans hj hk⟩) = none) :
    firstWin L = some p := by
  induction L generalizing k with
  | nil => exact absurd hk (Nat.not_lt_zero k)
  | cons l ls ih =>
    cases k with
    | zero =>
      simp only [List.get] at hwin
      simp [firstWin, hwin]
    | succ k0 =>
      have hl : lineWinner l = none := hbefore 0 (Nat.succ_pos k0)
      simp only [firstWin, hl]
      exact ih k0 (Nat.lt_of_succ_lt_succ hk) hwin
        (fun j hj => hbefore (j + 1) (Nat.succ_lt_succ hj))

/-- When some line of the list wins, the loop reports a winner. -/
lemma firstWin_isSome_of_mem (L : List (Cell × Cell × Cell)) (l : Cell × Cell × Cell)
    (hmem : l ∈ L) (q : Player) (hl : lineWinner l = some q) :
    ∃ p, firstWin L = some p := by
  induction L with
  | nil => exact absurd hmem (List.not_mem_nil l)
  | cons l0 ls ih =>
    cases hw : lineWinner l0 with
    | some p => exact ⟨p, by simp [firstWin, hw]⟩
    | none =>
      rcases List.mem_cons.mp hmem with rfl | hmem0
      · rw [hw] at hl
        exact Option.noConfusion hl
      · obtain ⟨p, hp⟩ := ih hmem0
        exact ⟨p, by simp [firstWin, hw, hp]⟩

/-- Looking up a freshly appended key finds the appended entry. -/
lemma find?_append_of_not_has (r : Registry) (s : Session) (a : Option Player)
    (h : hasSession r s = false) :
    ((r ++ [(s, a)]).find? fun e => e.1 == s) = some (s, a) := by
  induction r with
  | nil => simp [List.find?]
  | cons e r0 ih =>
    rw [hasSession, List.any_cons, Bool.or_eq_false_iff] at h
    obtain ⟨hne, h0⟩ := h
    simp only [List.cons_append, List.find?, hne]
    exact ih h0

/-- A role no live session holds is counted zero times. -/
lemma roleCount_eq_zero_of_not_holds (r : Registry) (p : Player)
    (h : holds r p = false) : roleCount r p = 0 := by
  rw [roleCount, List.countP_eq_zero]
  rw [holds, List.any_eq_false] at h
  exact h

/-- onConnect keeps the count of every role at most one. -/
lemma roleCount_onConnect_le (r : Registry) (s : Session) (p : Player)
    (h : roleCount r p ≤ 1) : roleCount (onConnect r s) p ≤ 1 := by
  rw [onConnect]
  split
  · exact h
  · rw [roleCount, List.countP_append]
    by_cases hX : holds r Player.X
    · by_cases hO : holds r Player.O
      · simp only [hX, hO, not_true_eq_false, if_false]
        cases p <;> simpa [roleCount, List.countP_cons] using h
      · simp only [hX, hO, not_true_eq_false, not_false_eq_true, if_false, if_true]
        cases p with
        | X => simpa [roleCount, List.countP_cons] using h
        | O =>
          have h0 : roleCount r Player.O = 0 :=
            roleCount_eq_zero_of_not_holds r Player.O (Bool.eq_false_iff.mpr hO)
          rw [roleCount] at h0
          simp [h0, List.countP_cons]
    · simp only [hX, not_false_eq_true, if_true]
      cases p with
      | X =>
        have h0 : roleCount r Player.X = 0 :=
          roleCount_eq_zero_of_not_holds r Player.X (Bool.eq_false_iff.mpr hX)
        rw [roleCount] at h0
        simp [h0, List.countP_cons]
      | O => simpa [roleCount, List.countP_cons] using h

/-- onDisconnect never increases the count of a role. -/
lemma roleCount_onDisconnect_le (r : Registry) (s : Session) (p : Player)
    (h : roleCount r p ≤ 1) : roleCount (onDisconnect r s) p ≤ 1 :=
  le_trans (List.Sublist.countP_le _ (List.filter_sublist r)) h

/-- Writing a mark into an empty cell raises the count of that mark by
one and leaves the count of the other mark unchanged. -/
lemma countMarks_setCell (b : Board) (y x : Fin 3) (hc : b y x = none)
    (p q : Player) :
    countMarks (setCell b y x (some p)) q =
      countMarks b q + (if q = p then 1 else 0) := by
  rcases eq_or_ne q p with rfl | hqp
  · fin_cases y <;> fin_cases x <;>
      simp only [Fin.zero_eta, Fin.mk_one, Fin.isValue,
        show (⟨2, by omega⟩ : Fin 3) = 2 from rfl] at hc <;>
      (simp [countMarks, cellList, setCell, List.countP_cons, hc, Fin.ext_iff]; try omega)
  · fin_cases y <;> fin_cases x <;>
      simp only [Fin.zero_eta, Fin.mk_one, Fin.isValue,
        show (⟨2, by omega⟩ : Fin 3) = 2 from rfl] at hc <;>
      (simp [countMarks, cellList, setCell, List.countP_cons, hc, Fin.ext_iff, hqp,
        Ne.symm hqp]; try omega)

/-- One event never pushes a role count above one. -/
lemma roleCount_stepServer_le (st : ServerState) (e : Event) (p : Player)
    (h : roleCount st.registry p ≤ 1) :
    roleCount (stepServer st e).registry p ≤ 1 := by
  cases e with
  | connect s => exact roleCount_onConnect_le _ s p h
  | disconnect s => exact roleCount_onDisconnect_le _ s p h
  | message s m => exact h

/-- The broadcast loop reaches every listed client whose own send
succeeds, for any accumulator already collected. -/
lemma mem_broadcast_foldl (deliver : Session → UpdateMessage → Bool)
    (m : UpdateMessage) (c : Session) :
    ∀ (l : List Session) (acc : List Session),
      c ∈ acc ∨ (c ∈ l ∧ deliver c m = true) →
      c ∈ l.foldl (fun acc1 c1 => if deliver c1 m then acc1 ++ [c1] else acc1) acc := by
  intro l
  induction l with
  | nil =>
    intro acc h
    rcases h with h | ⟨h, _⟩
    · exact h
    · exact absurd h (List.not_mem_nil c)
  | cons d l ih =>
    intro acc h
    simp only [List.foldl_cons]
    apply ih
    rcases h with hacc | ⟨hmem, hdel⟩
    · left
      split
      · exact List.mem_append_left _ hacc
      · exact hacc
    · rcases List.mem_cons.mp hmem with rfl | hmem0
      · left
        rw [if_pos hdel]
        exact List.mem_append_right _ (List.mem_singleton_self c)
      · right
        exact ⟨hmem0, hdel⟩

/-- An accepted move preserves the balance between cell counts and the
turn pointer. -/
lemma balanceInv_move (s : GameState) (x y : Fin 3) (hcell : s.board y x = none)
    (h : BalanceInv s) :
    BalanceInv { board := setCell s.board y x (some s.next),
                 next := if s.next = Player.X then Player.O else Player.X } := by
  have hX := countMarks_setCell s.board y x hcell s.next Player.X
  have hO := countMarks_setCell s.board y x hcell s.next Player.O
  rcases h with ⟨heq, hn⟩ | ⟨heq, hn⟩
  · rw [hn] at hX hO ⊢
    simp at hX hO
    right
    refine ⟨?_, rfl⟩
    show countMarks (setCell s.board y x (some Player.X)) Player.X
      = countMarks (setCell s.board y x (some Player.X)) Player.O + 1
    omega
  · rw [hn] at hX hO ⊢
    simp at hX hO
    left
    refine ⟨?_, rfl⟩
    show countMarks (setCell s.board y x (some Player.O)) Player.X
      = countMarks (setCell s.board y x (some Player.O)) Player.O
    omega

/-- The message handler preserves the balance between cell counts and the
turn pointer, whatever the sender and message. -/
lemma balanceInv_handleMessage (a : Option Player) (m : ClientMessage)
    (s : GameState) (h : BalanceInv s) :
    BalanceInv (handleMessage a m s).1 := by
  cases a with
  | none => exact h
  | some p =>
    cases m with
    | other => exact h
    | reset =>
      refine Or.inl ⟨?_, rfl⟩
      show countMarks (resetBoard s.board) Player.X
        = countMarks (resetBoard s.board) Player.O
      rw [resetBoard_eq]
      decide
    | move x y =>
      by_cases hp : p = s.next
      · by_cases hcell : s.board y x = none
        · subst hp
          have hb := balanceInv_move s x y hcell h
          simpa [handleMessage, hcell] using hb
        · simpa [handleMessage, hp, hcell] using h
      · simpa [handleMessage, hp] using h

/- ## Claim theorems -/

/-- C1: a move message from a non-spectator whose role equals the current
turn, targeting an empty cell, writes the role into the cell, recomputes
the outcome via checkWinner on the new board, flips the turn to the other
role and broadcasts the accepted move; consequently from the initial
state the turn is O after one accepted move and X again after a second
accepted move. -/
theorem move_accepted_spec (s : GameState) (p : Player) (x y : Fin 3)
    (hp : p = s.next) (hc : s.board y x = none) :
    (handleMessage (some p) (ClientMessage.move x y) s =
      ({ board := setCell s.board y x (some p),
         next := if s.next = Player.X then Player.O else Player.X },
       some { board := setCell s.board y x (some p),
              next := if s.next = Player.X then Player.O else Player.X,
              winner := checkWinner (setCell s.board y x (some p)) })) ∧
    (∀ x1 y1 : Fin 3,
      (handleMessage (some Player.X) (ClientMessage.move x1 y1) initialState).1.next
        = Player.O) ∧
    (∀ x1 y1 x2 y2 : Fin 3, (y2, x2) ≠ (y1, x1) →
      (handleMessage (some Player.O) (ClientMessage.move x2 y2)
        (handleMessage (some Player.X) (ClientMessage.move x1 y1) initialState).1).1.next
        = Player.X) := by
  refine ⟨?_, by decide, by decide⟩
  subst hp
  simp [handleMessage, hc]

/-- C1 witness: the theorem applied to the first move of a game, placing
X at the origin cell. -/
theorem move_accepted_spec_witness :
    Player.X = initialState.next ∧ initialState.board 0 0 = none ∧
    (handleMessage (some Player.X) (ClientMessage.move 0 0) initialState).1.board 0 0
      = some Player.X :=
  ⟨rfl, rfl, by
    rw [(move_accepted_spec initialState Player.X 0 0 rfl rfl).1]
    decide⟩

/-- C3: a rule-violating move message — the sender is a spectator, or the
role of the sender differs from the current turn, or the target cell is
occupied — is silently ignored: the state is unchanged and nothing is
broadcast or sent back. -/
theorem move_violation_ignored (s : GameState) (a : Option Player) (x y : Fin 3)
    (h : a = none ∨ (∃ p, a = some p ∧ p ≠ s.next) ∨ s.board y x ≠ none) :
    handleMessage a (ClientMessage.move x y) s = (s, none) := by
  rcases h with rfl | ⟨p, rfl, hp⟩ | hcell
  · rfl
  · simp [handleMessage, hp]
  · cases a with
    | none => rfl
    | some p =>
      by_cases hp : p = s.next
      · simp [handleMessage, hp, hcell]
      · simp [handleMessage, hp]

/-- C3 witness: the theorem applied to a spectator move, an out-of-turn
move, and moves by either role onto a board holding X at (0, 0) and
targeting that occupied cell. -/
theorem move_violation_ignored_witness :
    (handleMessage none (ClientMessage.move 1 1) initialState
      = (initialState, none)) ∧
    (handleMessage (some Player.O) (ClientMessage.move 1 1) initialState
      = (initialState, none)) ∧
    (handleMessage (some Player.O) (ClientMessage.move 0 0)
        { board := setCell emptyBoard 0 0 (some Player.X), next := Player.O }
      = ({ board := setCell emptyBoard 0 0 (some Player.X), next := Player.O }, none)) ∧
    (handleMessage (some Player.X) (ClientMessage.move 0 0)
        { board := setCell emptyBoard 0 0 (some Player.X), next := Player.O }
      = ({ board := setCell emptyBoard 0 0 (some Player.X), next := Player.O }, none)) :=
  ⟨move_violation_ignored initialState none 1 1 (Or.inl rfl),
   move_violation_ignored initialState (some Player.O) 1 1
     (Or.inr (Or.inl ⟨Player.O, rfl, by decide⟩)),
   move_violation_ignored _ (some Player.O) 0 0 (Or.inr (Or.inr (by decide))),
   move_violation_ignored _ (some Player.X) 0 0 (Or.inr (Or.inr (by decide)))⟩

/-- C4: an in-turn move to an empty cell is accepted even when the
outcome of the current board is already a win or a draw: the cell is
written and the turn flips, exactly as in the in-progress case. -/
theorem move_accepted_after_game_over (s : GameState) (p : Player) (x y : Fin 3)
    (_hout : checkWinner s.board ≠ Winner.inProgress)
    (hp : p = s.next) (hc : s.board y x = none) :
    (handleMessage (some p) (ClientMessage.move x y) s).1 =
      { board := setCell s.board y x (some p),
        next := if s.next = Player.X then Player.O else Player.X } ∧
    ((handleMessage (some p) (ClientMessage.move x y) s).2).isSome = true := by
  subst hp
  constructor <;> simp [handleMessage, hc]

/-- C4 witness: the theorem applied to a board whose top row is already
three X marks (a won position), where the in-turn player O still gets a
move at the empty cell (0, 1) accepted. -/
theorem move_accepted_after_game_over_witness :
    checkWinner (fun y _ => if y = 0 then some Player.X else none) ≠ Winner.inProgress ∧
    Player.O = ({ board := fun y _ => if y = 0 then some Player.X else none,
                  next := Player.O } : GameState).next ∧
    (fun (y : Fin 3) (_ : Fin 3) => if y = 0 then some Player.X else none) 1 0 = none ∧
    ((handleMessage (some Player.O) (ClientMessage.move 0 1)
        { board := fun y _ => if y = 0 then some Player.X else none,
          next := Player.O }).2).isSome = true :=
  ⟨by decide, rfl, by decide,
   (move_accepted_after_game_over
      { board := fun y _ => if y = 0 then some Player.X else none, next := Player.O }
      Player.O 0 1 (by decide) rfl (by decide)).2⟩

/-- C5 counterexample: a reset message from a spectator does not clear
the board and triggers no broadcast, because the guard on a null
assignment returns before the message switch; here the cell (0, 0) still
holds X afterwards. -/
theorem spectator_reset_ignored :
    ¬ (((handleMessage none ClientMessage.reset
          { board := setCell emptyBoard 0 0 (some Player.X), next := Player.O }).1.board
            = emptyBoard) ∧
       ((handleMessage none ClientMessage.reset
          { board := setCell emptyBoard 0 0 (some Player.X), next := Player.O }).2.isSome
            = true)) := by
  decide

/-- C5 amended: a reset message from either assigned player clears the
board, sets the turn to X and broadcasts the reset state, with no further
ownership check; a reset message from a spectator is silently ignored. -/
theorem reset_by_player_spec (s : GameState) (p : Player) :
    handleMessage (some p) ClientMessage.reset s =
      (initialState,
       some { board := emptyBoard, next := Player.X, winner := Winner.inProgress }) ∧
    handleMessage none ClientMessage.reset s = (s, none) := by
  constructor
  · simp [handleMessage, resetBoard_eq, initialState]
  · rfl

/-- C8: from any reachable server state, a reset message from a session
holding a role puts the game back to exactly the initial state: empty
board, turn X, outcome in progress. -/
theorem reset_roundtrip (evs : List Event) (sid : Session) (p : Player)
    (h : roleOf (runServer evs).registry sid = some p) :
    (stepServer (runServer evs) (Event.message sid ClientMessage.reset)).game
      = initialState ∧
    initialState.board = emptyBoard ∧ initialState.next = Player.X ∧
    checkWinner initialState.board = Winner.inProgress := by
  refine ⟨?_, rfl, rfl, by decide⟩
  simp [stepServer, h, handleMessage, resetBoard_eq, initialState]

/-- C8 witness: the theorem applied to the state reached by a single
connection, which holds the role X. -/
theorem reset_roundtrip_witness :
    roleOf (runServer [Event.connect 0]).registry 0 = some Player.X ∧
    (stepServer (runServer [Event.connect 0])
      (Event.message 0 ClientMessage.reset)).game = initialState :=
  ⟨by decide, (reset_roundtrip [Event.connect 0] 0 Player.X (by decide)).1⟩

/-- C2: checkWinner enumerates the eight triples in the fixed order rows
top to bottom, then columns left to right, then the main diagonal, then
the anti-diagonal, and returns the win of the first triple whose three
cells are equal and non-empty; with no matching triple it returns draw
when every cell is filled and in-progress otherwise; in particular a full
board containing a completed line is a win, never a draw. -/
theorem checkWinner_spec (b : Board) :
    (lines b =
      [ (b 0 0, b 0 1, b 0 2), (b 1 0, b 1 1, b 1 2), (b 2 0, b 2 1, b 2 2),
        (b 0 0, b 1 0, b 2 0), (b 0 1, b 1 1, b 2 1), (b 0 2, b 1 2, b 2 2),
        (b 0 0, b 1 1, b 2 2), (b 0 2, b 1 1, b 2 0) ]) ∧
    (∀ (p : Player) (k : Nat) (hk : k < (lines b).length),
      (lines b).get ⟨k, hk⟩ = (some p, some p, some p) →
      (∀ (j : Nat) (hj : j < k), ∀ q : Player,
        (lines b).get ⟨j, Nat.lt_trans hj hk⟩ ≠ (some q, some q, some q)) →
      checkWinner b = Winner.won p) ∧
    ((∀ l ∈ lines b, ∀ q : Player, l ≠ (some q, some q, some q)) →
      checkWinner b = if isFull b then Winner.draw else Winner.inProgress) ∧
    (isFull b = true →
      (∃ l ∈ lines b, ∃ q : Player, l = (some q, some q, some q)) →
      (∃ q, checkWinner b = Winner.won q) ∧ checkWinner b ≠ Winner.draw) := by
  refine ⟨rfl, ?_, ?_, ?_⟩
  · intro p k hk hwin hbefore
    have hfw : firstWin (lines b) = some p :=
      firstWin_of_first (lines b) k hk p ((lineWinner_eq_some _ p).mpr hwin)
        (fun j hj => (lineWinner_eq_none _).mpr (hbefore j hj))
    simp [checkWinner, hfw]
  · intro h
    have hfw : firstWin (lines b) = none :=
      (firstWin_eq_none (lines b)).mpr fun l hl => (lineWinner_eq_none l).mpr (h l hl)
    simp [checkWinner, hfw]
  · intro hfull hline
    obtain ⟨l, hl, q, hlq⟩ := hline
    obtain ⟨p, hp⟩ :=
      firstWin_isSome_of_mem (lines b) l hl q ((lineWinner_eq_some l q).mpr hlq)
    exact ⟨⟨p, by simp [checkWinner, hp]⟩, by simp [checkWinner, hp]⟩

/-- C2 witness: the theorem applied to a completely filled board whose
top row is three X marks: the outcome is a win, not a draw. -/
theorem checkWinner_spec_witness :
    isFull (fun y x =>
      if y = 0 then some Player.X
      else if y = 1 then (if x = 2 then some Player.X else some Player.O)
      else (if x = 0 then some Player.X else some Player.O)) = true ∧
    (∃ l ∈ lines (fun y x =>
      if y = 0 then some Player.X
      else if y = 1 then (if x = 2 then some Player.X else some Player.O)
      else (if x = 0 then some Player.X else some Player.O)),
      ∃ q : Player, l = (some q, some q, some q)) ∧
    ((∃ q, checkWinner (fun y x =>
      if y = 0 then some Player.X
      else if y = 1 then (if x = 2 then some Player.X else some Player.O)
      else (if x = 0 then some Player.X else some Player.O)) = Winner.won q) ∧
     checkWinner (fun y x =>
      if y = 0 then some Player.X
      else if y = 1 then (if x = 2 then some Player.X else some Player.O)
      else (if x = 0 then some Player.X else some Player.O)) ≠ Winner.draw) :=
  ⟨by decide, by decide,
   (checkWinner_spec _).2.2.2 (by decide) (by decide)⟩

/-- C6: onConnect assigns X to a new session when no mapped session holds
X, else O when none holds O, else a spectator assignment; concretely the
first connection gets X, the second O, the third is a spectator, and
after a role holder disconnects the next new connection is assigned the
freed role. -/
theorem onConnect_assignment_spec (r : Registry) (s : Session)
    (h : hasSession r s = false) :
    (roleOf (onConnect r s) s =
      if ¬ holds r Player.X then some Player.X
      else if ¬ holds r Player.O then some Player.O
      else none) ∧
    (roleOf (runServer [Event.connect 0, Event.connect 1, Event.connect 2]).registry 0
      = some Player.X) ∧
    (roleOf (runServer [Event.connect 0, Event.connect 1, Event.connect 2]).registry 1
      = some Player.O) ∧
    (roleOf (runServer [Event.connect 0, Event.connect 1, Event.connect 2]).registry 2
      = none) ∧
    (roleOf (runServer [Event.connect 0, Event.connect 1, Event.disconnect 0,
        Event.connect 2]).registry 2 = some Player.X) ∧
    (roleOf (runServer [Event.connect 0, Event.connect 1, Event.disconnect 1,
        Event.connect 2]).registry 2 = some Player.O) := by
  refine ⟨?_, by decide, by decide, by decide, by decide, by decide⟩
  rw [onConnect, if_neg (by simp [h])]
  rw [roleOf, find?_append_of_not_has r s _ h]
  rfl

/-- C6 witness: the theorem applied to the empty registry, whose first
connection is assigned X. -/
theorem onConnect_assignment_spec_witness :
    hasSession [] 0 = false ∧ roleOf (onConnect [] 0) 0 = some Player.X :=
  ⟨rfl, by
    have h := (onConnect_assignment_spec [] 0 rfl).1
    rw [h]
    decide⟩

/-- C7: in every registry state reachable from the empty registry by any
sequence of events, no two live sessions hold the same non-spectator
role: each of X and O is held by at most one mapped session. -/
theorem registry_role_unique (evs : List Event) (p : Player) :
    roleCount (runServer evs).registry p ≤ 1 := by
  suffices h : ∀ st, roleCount st.registry p ≤ 1 →
      roleCount (evs.foldl stepServer st).registry p ≤ 1 by
    exact h initialServer (by simp [initialServer, roleCount])
  induction evs with
  | nil => exact fun st h => h
  | cons e evs ih =>
    intro st h
    exact ih _ (roleCount_stepServer_le st e p h)

/-- C9: a send failure at one connection does not prevent delivery to the
other connections: every connected session whose own send succeeds
receives the broadcast snapshot, whatever the send results of the other
sessions. -/
theorem broadcast_reaches_others (deliver : Session → UpdateMessage → Bool)
    (clients : List Session) (m : UpdateMessage) (c : Session)
    (hc : c ∈ clients) (hd : deliver c m = true) :
    c ∈ broadcast deliver clients m :=
  mem_broadcast_foldl deliver m c clients [] (Or.inr ⟨hc, hd⟩)

/-- C9 witness: the theorem applied to three connected sessions where the
send to session 0 fails: session 1 still receives the snapshot. -/
theorem broadcast_reaches_others_witness :
    (1 : Session) ∈ [0, 1, 2] ∧
    (fun (c1 : Session) (_ : UpdateMessage) => c1 != 0) 1
      { board := emptyBoard, next := Player.X, winner := Winner.inProgress } = true ∧
    (1 : Session) ∈ broadcast (fun c1 _ => c1 != 0) [0, 1, 2]
      { board := emptyBoard, next := Player.X, winner := Winner.inProgress } :=
  ⟨by decide, by decide,
   broadcast_reaches_others (fun c1 _ => c1 != 0) [0, 1, 2]
     { board := emptyBoard, next := Player.X, winner := Winner.inProgress } 1
     (by decide) (by decide)⟩

/-- C10: in every game state reachable from the initial state by any
sequence of connection events and handled messages, the number of X cells
equals the number of O cells exactly when X moves next, and exceeds it by
exactly one exactly when O moves next. -/
theorem board_counts_match_turn (evs : List Event) :
    (countMarks (runServer evs).game.board Player.X
       = countMarks (runServer evs).game.board Player.O
     ↔ (runServer evs).game.next = Player.X) ∧
    (countMarks (runServer evs).game.board Player.X
       = countMarks (runServer evs).game.board Player.O + 1
     ↔ (runServer evs).game.next = Player.O) := by
  have hinv : BalanceInv (runServer evs).game := by
    suffices h : ∀ st, BalanceInv st.game →
        BalanceInv ((evs.foldl stepServer st).game) from
      h initialServer (Or.inl ⟨by decide, rfl⟩)
    induction evs with
    | nil => exact fun st h => h
    | cons e evs ih =>
      intro st h
      refine ih _ ?_
      cases e with
      | connect s => exact h
      | disconnect s => exact h
      | message s m => exact balanceInv_handleMessage _ m _ h
  rcases hinv with ⟨heq, hn⟩ | ⟨heq, hn⟩
  · rw [hn]
    exact ⟨iff_of_true heq rfl, iff_of_false (by omega) (by decide)⟩
  · rw [hn]
    exact ⟨iff_of_false (by omega) (by decide), iff_of_true heq rfl⟩

end TicTacToe
